import Mathlib

/-!
Verification of the evaluation core of the open-reid-tracking repository.

The embedding covers `reid/evaluators.py` (feature extraction, pairwise
distance, evaluation orchestration) and `reid/datasets/ai_city.py`
(the `AI_City.preprocess` split builder).  Floating-point tensors are
modelled as exact rationals, ordered Python dicts as association lists,
and raised exceptions (KeyError, AssertionError) as `none` results.
The `cmc` and `mean_ap` ranking metrics live outside the embedded files
and are treated as opaque function parameters, as are the CNN model and
the image type.
-/

/-- A dataset sample: (file name, identity label, camera identifier),
matching the `(fname, pid, cam)` triples used throughout `evaluators.py`. -/
abbrev Sample := String × Int × Int

/-- Association-list lookup: first binding for the key wins (Python dict
lookup, where our insertion discipline keeps the newest binding first). -/
def alookup {α β : Type} [DecidableEq α] : List (α × β) → α → Option β
  | [], _ => none
  | (k, v) :: es, a => if k = a then some v else alookup es a

/-- Left-to-right effectful map over `Option`: models a Python list
comprehension in which the first failing lookup raises and aborts. -/
def optMap {α β : Type} (f : α → Option β) : List α → Option (List β)
  | [] => some []
  | a :: l =>
    match f a with
    | none => none
    | some b =>
      match optMap f l with
      | none => none
      | some bs => some (b :: bs)

/-- `torch.pow(x, 2).sum(dim=1)` for one row: the squared Euclidean norm. -/
def sqnorm (v : List ℚ) : ℚ := (v.map (fun a => a * a)).sum

/-- Dot product of two rows (`x @ y.t()` entrywise). -/
def dotp (x y : List ℚ) : ℚ := (List.zipWith (fun a b => a * b) x y).sum

/-- One entry of the distance matrix produced by lines 51-53 of
`evaluators.py`: `||x_i||^2 + ||y_j||^2 - 2 * x_i . y_j`
(`dist.addmm_(1, -2, x, y.t())` subtracts twice the Gram matrix). -/
def entryDist (xi yj : List ℚ) : ℚ := sqnorm xi + sqnorm yj - 2 * dotp xi yj

/-- `pairwise_distance` from `evaluators.py` lines 44-54: gather the query
embeddings by file name, then the gallery embeddings, then form the m x n
squared-distance matrix by the norm-expansion formula.  A missing key
raises (returns `none`) before any matrix is produced, and so does
`torch.cat` when handed the empty tensor list produced by an empty query
or gallery list (a RuntimeError in the source), modelled by the
`isEmpty` branches. -/
def pairwise_distance (query_features gallery_features : List (String × List ℚ))
    (query gallery : List Sample) : Option (List (List ℚ)) :=
  match optMap (fun s => alookup query_features s.1) query with
  | none => none
  | some x =>
    if x.isEmpty then none
    else
      match optMap (fun s => alookup gallery_features s.1) gallery with
      | none => none
      | some y =>
        if y.isEmpty then none
        else some (x.map (fun xi => y.map (fun yj => entryDist xi yj)))

/-- Distance matrices handed to the orchestrator. -/
abbrev Mat := List (List ℚ)

/-- Type of the external `mean_ap` metric (evaluation_metrics module, outside
the embedded files): distmat, query ids, gallery ids, query cams, gallery
cams ↦ mAP. -/
abbrev MeanApFn := Mat → List Int → List Int → List Int → List Int → ℚ

/-- Type of the external `cmc` metric: distmat, query ids, gallery ids,
query cams, gallery cams, `separate_camera_set`, `single_gallery_shot`,
`first_match_break` ↦ CMC curve (indexed by rank, rank 1 at index 0). -/
abbrev CmcFn := Mat → List Int → List Int → List Int → List Int →
  Bool → Bool → Bool → ℕ → ℚ

/-- Python bankers rounding (round-half-even), the rounding used by
`str.format` on floats. -/
def roundHalfEven (q : ℚ) : ℤ :=
  if q - (q.floor : ℚ) < 1 / 2 then q.floor
  else if 1 / 2 < q - (q.floor : ℚ) then q.floor + 1
  else if q.floor % 2 = 0 then q.floor else q.floor + 1

/-- Left-pad with spaces to width 5 (the `5` in format spec `{:5.2%}`). -/
def pad5 (s : String) : String :=
  if s.length < 5 then String.mk (List.replicate (5 - s.length) ' ') ++ s else s

/-- Two-digit zero-padded decimal rendering of a number below 100. -/
def twoDigits (k : ℕ) : String := (if k < 10 then "0" else "") ++ toString k

/-- Python `format(q, "5.2%")`: multiply by 100, render with two decimal
places (rounded half-even), append `%`, pad to width 5. -/
def fmtPercent (q : ℚ) : String :=
  let n := roundHalfEven (q * 10000)
  pad5 ((if n < 0 then "-" else "") ++ toString (n.natAbs / 100) ++ "." ++
    twoDigits (n.natAbs % 100) ++ "%")

/-- The single console line printed by `evaluate_all` (line 89-90 of
`evaluators.py`). -/
def summaryLine (m c1 c5 c10 : ℚ) : String :=
  "[mAP: " ++ fmtPercent m ++ "], [cmc1: " ++ fmtPercent c1 ++
    "], [cmc5: " ++ fmtPercent c5 ++ "], [cmc10: " ++ fmtPercent c10 ++ "]"

/-- Result of a successful `evaluate_all` call: the console lines it printed
and the scalar it returned. -/
structure EvalOutput where
  printed : List String
  score : ℚ
deriving DecidableEq

/-- Body of `evaluate_all` after the metadata have been resolved: compute
mAP, compute the CMC curve of the one configured policy
(`market1501`: separate_camera_set=False, single_gallery_shot=False,
first_match_break=True), print the summary line over curve indices 0, 4, 9,
and return the curve value at index 0. -/
def evaluate_core (mapf : MeanApFn) (cmcf : CmcFn) (distmat : Mat)
    (query_ids gallery_ids query_cams gallery_cams : List Int) : EvalOutput :=
  let mAP := mapf distmat query_ids gallery_ids query_cams gallery_cams
  let curve := cmcf distmat query_ids gallery_ids query_cams gallery_cams
    false false true
  { printed := [summaryLine mAP (curve 0) (curve 4) (curve 9)],
    score := curve 0 }

/-- The `assert` of `evaluate_all` lines 66-68: all four metadata lists
must be supplied; a missing one kills the call (`none` =
`AssertionError`). -/
def assertMeta (query_ids gallery_ids query_cams gallery_cams : Option (List Int)) :
    Option (List Int × List Int × List Int × List Int) :=
  match query_ids, gallery_ids, query_cams, gallery_cams with
  | some qi, some gi, some qc, some gc => some (qi, gi, qc, gc)
  | _, _, _, _ => none

/-- Metadata resolution of `evaluate_all` lines 61-68: if both sample lists
are given, project ids and cams out of them; otherwise all four metadata
lists must be given (`assert`), else the call dies (`none`). -/
def effectiveMeta (query gallery : Option (List Sample))
    (query_ids gallery_ids query_cams gallery_cams : Option (List Int)) :
    Option (List Int × List Int × List Int × List Int) :=
  match query, gallery with
  | some q, some g =>
      some (q.map (fun s => s.2.1), g.map (fun s => s.2.1),
        q.map (fun s => s.2.2), g.map (fun s => s.2.2))
  | _, _ => assertMeta query_ids gallery_ids query_cams gallery_cams

/-- `evaluate_all` from `evaluators.py` lines 57-93.  `none` models the
`AssertionError`; on success it yields the printed line and the returned
rank-1 score. -/
def evaluate_all (mapf : MeanApFn) (cmcf : CmcFn) (distmat : Mat)
    (query gallery : Option (List Sample))
    (query_ids gallery_ids query_cams gallery_cams : Option (List Int)) :
    Option EvalOutput :=
  (effectiveMeta query gallery query_ids gallery_ids query_cams gallery_cams).map
    (fun m => evaluate_core mapf cmcf distmat m.1 m.2.1 m.2.2.1 m.2.2.2)

/-- One batch yielded by a data loader: images, file names, identity
labels, camera identifiers (`for i, (imgs, fnames, pids, _) in ...`). -/
structure LoaderBatch (Img : Type) where
  imgs : List Img
  fnames : List String
  pids : List Int
  cams : List Int

/-- Modelled from the spec: `extract_cnn_feature` (feature_extraction
module, not under src) runs the model on a batch of images and returns one
embedding per image; the model itself is an external collaborator, taken
here as a batch-level function. -/
def extract_cnn_feature {Img : Type} (model : List Img → List (List ℚ))
    (imgs : List Img) : List (List ℚ) := model imgs

/-- The stream of `(fname, output, pid)` triples that the extraction loop
writes, in write order: per batch, `zip(fnames, outputs, pids)` (zip
truncates to the shortest argument). -/
def allTriples {Img : Type} (model : List Img → List (List ℚ))
    (dl : List (LoaderBatch Img)) : List (String × List ℚ × Int) :=
  (dl.map (fun b =>
    b.fnames.zip ((extract_cnn_feature model b.imgs).zip b.pids))).flatten

/-- Sequentially write the triples into the two dicts; a new binding is
consed on, so it shadows any older binding for the same file name under
`alookup`. -/
def procTriples :
    List (String × List ℚ × Int) →
    List (String × List ℚ) × List (String × Int) →
    List (String × List ℚ) × List (String × Int)
  | [], acc => acc
  | (f, o, p) :: ts, (fe, la) => procTriples ts ((f, o) :: fe, (f, p) :: la)

/-- `extract_features` from `evaluators.py` lines 13-41: iterate over the
loader, run the model on each batch, and record each file name's embedding
and identity label (later occurrences overwrite earlier ones). -/
def extract_features {Img : Type} (model : List Img → List (List ℚ))
    (dl : List (LoaderBatch Img)) :
    List (String × List ℚ) × List (String × Int) :=
  procTriples (allTriples model dl) ([], [])

/-- The binding produced by the LAST entry of `l` whose key is `a`
(used to state the overwrite semantics of the extraction dicts). -/
def lastEntry {α β : Type} [DecidableEq α] : List (α × β) → α → Option β
  | [], _ => none
  | (k, v) :: es, a =>
    match lastEntry es a with
    | some w => some w
    | none => if k = a then some v else none

/-- `Evaluator.evaluate` from `evaluators.py` lines 101-107: extract query
and gallery features, build the distance matrix, and delegate to
`evaluate_all` with both sample lists supplied. -/
def Evaluator.evaluate {Img : Type} (model : List Img → List (List ℚ))
    (mapf : MeanApFn) (cmcf : CmcFn)
    (query_loader gallery_loader : List (LoaderBatch Img))
    (query gallery : List Sample) : Option EvalOutput :=
  match pairwise_distance (extract_features model query_loader).1
      (extract_features model gallery_loader).1 query gallery with
  | none => none
  | some distmat =>
      evaluate_all mapf cmcf distmat (some query) (some gallery)
        none none none none

/-- One matched `*.jpg` file as `AI_City.preprocess` sees it after the
glob + regex/XML metadata extraction (which involves the file system and is
abstracted away): base file name, raw identity label, raw camera number.
The files are listed in sorted file-name order, as `sorted(glob(...))`
produces them. -/
structure RawFile where
  fname : String
  pid : Int
  cam : Int
deriving DecidableEq

/-- The loop of `AI_City.preprocess` (`ai_city.py` lines 60-87): skip
files whose raw identity is -1; give the identity its dict entry on first
appearance (`len(all_pids)` under relabelling, the raw value otherwise);
decrement the camera number; append the sample. -/
def preprocessAux (relabel : Bool) :
    List RawFile → List (Int × Int) → List Sample →
    List (Int × Int) × List Sample
  | [], all_pids, ret => (all_pids, ret)
  | f :: fs, all_pids, ret =>
    if f.pid = -1 then preprocessAux relabel fs all_pids ret
    else
      let all_pids' :=
        if (alookup all_pids f.pid).isSome then all_pids
        else all_pids ++
          [(f.pid, if relabel then (all_pids.length : Int) else f.pid)]
      preprocessAux relabel fs all_pids'
        (ret ++ [(f.fname, (alookup all_pids' f.pid).getD 0, f.cam - 1)])

/-- `AI_City.preprocess`: returns the sample list and `len(all_pids)`. -/
def AI_City.preprocess (files : List RawFile) (relabel : Bool) :
    List Sample × ℕ :=
  let r := preprocessAux relabel files [] []
  (r.2, r.1.length)

/-- Distinct values of `ps` in order of first appearance, continuing from
the already-seen prefix `seen` (mirrors the growth of the `all_pids`
dict key set). -/
def firstAppAux (seen : List Int) : List Int → List Int
  | [] => seen
  | p :: ps => firstAppAux (if p ∈ seen then seen else seen ++ [p]) ps

/-- Distinct values of a list in order of first appearance. -/
def firstApp (ps : List Int) : List Int := firstAppAux [] ps

/-- Index of the first occurrence of `p` (length of the list if absent). -/
def idxOf (p : Int) : List Int → ℕ
  | [] => 0
  | q :: qs => if q = p then 0 else idxOf p qs + 1

/-- The label `AI_City.preprocess` finally assigns to raw identity `p`,
given the first-appearance list `seen` of all retained raw identities. -/
def pidAssign (relabel : Bool) (seen : List Int) (p : Int) : Int :=
  if relabel then (idxOf p seen : Int) else p

/-- The files `AI_City.preprocess` retains: raw identity label ≠ -1. -/
def retainedFiles (files : List RawFile) : List RawFile :=
  files.filter (fun x => x.pid ≠ -1)

/-- The distinct retained raw identities, in order of first appearance. -/
def seenPids (files : List RawFile) : List Int :=
  firstApp ((retainedFiles files).map RawFile.pid)

theorem optMap_isSome {α β : Type} (f : α → Option β) (l : List α)
    (h : ∀ a ∈ l, (f a).isSome) : ∃ bs, optMap f l = some bs := by
  induction l with
  | nil => exact ⟨[], rfl⟩
  | cons a l ih =>
    obtain ⟨b, hb⟩ := Option.isSome_iff_exists.mp (h a (List.mem_cons_self a l))
    obtain ⟨bs, hbs⟩ := ih (fun x hx => h x (List.mem_cons_of_mem a hx))
    exact ⟨b :: bs, by simp [optMap, hb, hbs]⟩

theorem optMap_length {α β : Type} (f : α → Option β) (l : List α) (bs : List β)
    (h : optMap f l = some bs) : bs.length = l.length := by
  induction l generalizing bs with
  | nil => simp [optMap] at h; simp [← h]
  | cons a l ih =>
    simp only [optMap] at h
    cases hfa : f a with
    | none => rw [hfa] at h; exact absurd h (by simp)
    | some b =>
      rw [hfa] at h
      cases hrec : optMap f l with
      | none => rw [hrec] at h; exact absurd h (by simp)
      | some bs0 =>
        rw [hrec] at h
        cases h
        simp [ih bs0 hrec]

theorem optMap_get {α β : Type} (f : α → Option β) (l : List α) (bs : List β)
    (d : β) (h : optMap f l = some bs) :
    ∀ i (hi : i < l.length), f (l.get ⟨i, hi⟩) = some (bs.getD i d) := by
  induction l generalizing bs with
  | nil => intro i hi; exact absurd hi (by simp)
  | cons a l ih =>
    simp only [optMap] at h
    cases hfa : f a with
    | none => rw [hfa] at h; exact absurd h (by simp)
    | some b =>
      rw [hfa] at h
      cases hrec : optMap f l with
      | none => rw [hrec] at h; exact absurd h (by simp)
      | some bs0 =>
        rw [hrec] at h
        cases h
        intro i hi
        cases i with
        | zero => simpa using hfa
        | succ j =>
          have hj : j < l.length := Nat.lt_of_succ_lt_succ hi
          simpa using ih bs0 hrec j hj

theorem optMap_none {α β : Type} (f : α → Option β) (l : List α)
    (h : ∃ a ∈ l, f a = none) : optMap f l = none := by
  induction l with
  | nil => simp at h
  | cons a l ih =>
    obtain ⟨x, hx, hfx⟩ := h
    rcases List.mem_cons.mp hx with rfl | hx
    · simp [optMap, hfx]
    · simp only [optMap]
      cases hfa : f a with
      | none => rfl
      | some b => rw [ih ⟨x, hx, hfx⟩]

theorem sqnorm_nonneg (v : List ℚ) : 0 ≤ sqnorm v := by
  induction v with
  | nil => simp [sqnorm]
  | cons a v ih =>
    have : 0 ≤ a * a := mul_self_nonneg a
    simp only [sqnorm, List.map_cons, List.sum_cons]
    have ih' : 0 ≤ (v.map (fun a => a * a)).sum := ih
    linarith

theorem entryDist_nonneg (x y : List ℚ) : 0 ≤ entryDist x y := by
  induction x generalizing y with
  | nil =>
    simp only [entryDist, sqnorm, dotp, List.map_nil, List.sum_nil, List.zipWith_nil_left]
    have := sqnorm_nonneg y
    simp only [sqnorm] at this
    linarith
  | cons a x ih =>
    cases y with
    | nil =>
      simp only [entryDist, dotp, List.zipWith_nil_right, List.sum_nil]
      have h1 := sqnorm_nonneg (a :: x)
      have h2 := sqnorm_nonneg ([] : List ℚ)
      simp only [entryDist] at *
      nlinarith
    | cons b y =>
      have hrec := ih y
      simp only [entryDist, sqnorm, dotp, List.map_cons, List.sum_cons,
        List.zipWith_cons_cons] at *
      nlinarith [sq_nonneg (a - b)]

/-- C2 (amended): when the query and gallery lists are nonempty (an empty
one makes the source die in `torch.cat`) and every listed file name is
present in the corresponding embedding collection, `pairwise_distance`
returns an `m × n` matrix whose `(i, j)` entry is
`||x_i||² + ||y_j||² − 2·x_i·y_j`, with rows following the query list
order and columns the gallery list order. -/
theorem pairwise_distance_formula (qf gf : List (String × List ℚ))
    (query gallery : List Sample)
    (hq : ∀ s ∈ query, (alookup qf s.1).isSome)
    (hg : ∀ s ∈ gallery, (alookup gf s.1).isSome)
    (hq0 : query ≠ []) (hg0 : gallery ≠ []) :
    ∃ D, pairwise_distance qf gf query gallery = some D ∧
      D.length = query.length ∧
      (∀ row ∈ D, row.length = gallery.length) ∧
      (∀ i j (hi : i < query.length) (hj : j < gallery.length),
        ∃ xi yj, alookup qf (query.get ⟨i, hi⟩).1 = some xi ∧
          alookup gf (gallery.get ⟨j, hj⟩).1 = some yj ∧
          (D.getD i []).getD j 0 = sqnorm xi + sqnorm yj - 2 * dotp xi yj) := by
  obtain ⟨x, hx⟩ := optMap_isSome _ query hq
  obtain ⟨y, hy⟩ := optMap_isSome _ gallery hg
  have hxe : x.isEmpty = false := by
    cases x with
    | nil =>
      have h0 := optMap_length _ _ _ hx
      exact absurd (List.length_eq_zero.mp h0.symm) hq0
    | cons a l => rfl
  have hye : y.isEmpty = false := by
    cases y with
    | nil =>
      have h0 := optMap_length _ _ _ hy
      exact absurd (List.length_eq_zero.mp h0.symm) hg0
    | cons a l => rfl
  refine ⟨x.map (fun xi => y.map (fun yj => entryDist xi yj)), ?_, ?_, ?_, ?_⟩
  · simp [pairwise_distance, hx, hy, hxe, hye]
  · simp [optMap_length _ _ _ hx]
  · intro row hrow
    obtain ⟨xi, _, rfl⟩ := List.mem_map.mp hrow
    simp [optMap_length _ _ _ hy]
  · intro i j hi hj
    have hxlen : x.length = query.length := optMap_length _ _ _ hx
    have hylen : y.length = gallery.length := optMap_length _ _ _ hy
    refine ⟨x.getD i [], y.getD j [], optMap_get _ _ _ [] hx i hi,
      optMap_get _ _ _ [] hy j hj, ?_⟩
    have hxi : i < x.length := hxlen ▸ hi
    have hyj : j < y.length := hylen ▸ hj
    have h1 : (x.map (fun xi => y.map (fun yj => entryDist xi yj))).getD i [] =
        y.map (fun yj => entryDist (x.getD i []) yj) := by
      rw [List.getD_eq_getElem _ _ (by simpa using hxi), List.getElem_map,
        List.getD_eq_getElem _ _ hxi]
    rw [h1, List.getD_eq_getElem _ _ (by simpa using hyj), List.getElem_map,
      List.getD_eq_getElem _ _ hyj]
    rfl

/-- C3: every entry of a distance matrix returned by `pairwise_distance`
is non-negative (in the exact-rational semantics the norm-expansion
formula is a sum of squares). -/
theorem pairwise_distance_nonneg (qf gf : List (String × List ℚ))
    (query gallery : List Sample) (D : List (List ℚ))
    (h : pairwise_distance qf gf query gallery = some D) :
    ∀ row ∈ D, ∀ e ∈ row, 0 ≤ e := by
  simp only [pairwise_distance] at h
  cases hx : optMap (fun s => alookup qf s.1) query with
  | none => rw [hx] at h; exact absurd h (by simp)
  | some x =>
    rw [hx] at h
    cases hxe : x.isEmpty with
    | true => simp [hxe] at h
    | false =>
      simp only [hxe, Bool.false_eq_true, if_false] at h
      cases hy : optMap (fun s => alookup gf s.1) gallery with
      | none => rw [hy] at h; exact absurd h (by simp)
      | some y =>
        rw [hy] at h
        cases hye : y.isEmpty with
        | true => simp [hye] at h
        | false =>
          simp only [hye, Bool.false_eq_true, if_false] at h
          cases h
          intro row hrow e he
          obtain ⟨xi, _, rfl⟩ := List.mem_map.mp hrow
          obtain ⟨yj, _, rfl⟩ := List.mem_map.mp he
          exact entryDist_nonneg xi yj

/-- Witness for C3 at a concrete input: the sole entry of the distance
matrix of the embeddings [1] and [2] is non-negative. -/
theorem pairwise_distance_nonneg_witness : (0 : ℚ) ≤ 1 :=
  pairwise_distance_nonneg [("a", [1])] [("b", [2])]
    [("a", 0, 0)] [("b", 0, 0)] [[1]]
    (by norm_num [pairwise_distance, optMap, alookup, List.isEmpty,
      entryDist, sqnorm, dotp])
    [1] (by simp) 1 (by simp)

/-- Witness for C2 at a concrete input. -/
theorem pairwise_distance_formula_witness :
    ∃ D, pairwise_distance [("a", [(1 : ℚ), 2])] [("b", [3]), ("c", [0])]
      [("a", 5, 0)] [("b", 5, 1), ("c", 7, 1)] = some D ∧
      D.length = 1 ∧ (∀ row ∈ D, row.length = 2) ∧
      (∀ i j (hi : i < 1) (hj : j < 2),
        ∃ xi yj, alookup [("a", [(1 : ℚ), 2])] ((([("a", 5, 0)] : List Sample).get ⟨i, hi⟩).1) = some xi ∧
          alookup [("b", [(3 : ℚ)]), ("c", [0])] ((([("b", 5, 1), ("c", 7, 1)] : List Sample).get ⟨j, hj⟩).1) = some yj ∧
          (D.getD i []).getD j 0 = sqnorm xi + sqnorm yj - 2 * dotp xi yj) :=
  pairwise_distance_formula _ _ _ _ (by decide) (by decide) (by simp) (by simp)

/-- C2 counterexample: with an empty query (resp. gallery) sample list the
source dies in `torch.cat` on an empty tensor list, so no 0 × n
(resp. m × 0) matrix is returned, although every listed file identifier
is present in the corresponding embedding collection. -/
theorem pairwise_distance_empty_cex :
    pairwise_distance [("a", [(1 : ℚ)])] [("b", [2])] [] [("b", 0, 0)] = none ∧
    pairwise_distance [("a", [(1 : ℚ)])] [("b", [2])] [("a", 0, 0)] [] = none := by
  constructor
  · rfl
  · norm_num [pairwise_distance, optMap, alookup, List.isEmpty]

/-- C5: if any query file name is missing from the query embedding
collection, or any gallery file name is missing from the gallery
embedding collection, `pairwise_distance` fails outright — no partial
matrix is returned. -/
theorem pairwise_distance_missing_key (qf gf : List (String × List ℚ))
    (query gallery : List Sample)
    (h : (∃ s ∈ query, alookup qf s.1 = none) ∨
         (∃ s ∈ gallery, alookup gf s.1 = none)) :
    pairwise_distance qf gf query gallery = none := by
  rcases h with hq | hg
  · simp [pairwise_distance, optMap_none _ _ hq]
  · simp only [pairwise_distance]
    cases hx : optMap (fun s => alookup qf s.1) query with
    | none => rfl
    | some x =>
      cases hxe : x.isEmpty with
      | true => simp [hxe]
      | false => simp [hxe, optMap_none _ _ hg]

/-- Witness for C5 at a concrete input. -/
theorem pairwise_distance_missing_key_witness :
    pairwise_distance [("a", [(1 : ℚ)])] [] [("a", 0, 0)] [("zzz", 0, 0)] = none :=
  pairwise_distance_missing_key _ _ _ _ (Or.inr ⟨("zzz", 0, 0), by decide, rfl⟩)

theorem assertMeta_none (qi gi qc gc : Option (List Int))
    (h : qi = none ∨ gi = none ∨ qc = none ∨ gc = none) :
    assertMeta qi gi qc gc = none := by
  rcases qi with _ | a <;> rcases gi with _ | b <;> rcases qc with _ | c <;>
    rcases gc with _ | d <;> simp_all [assertMeta]

theorem effectiveMeta_of_missing (query gallery : Option (List Sample))
    (qi gi qc gc : Option (List Int)) (hqg : query = none ∨ gallery = none) :
    effectiveMeta query gallery qi gi qc gc = assertMeta qi gi qc gc := by
  rcases hqg with rfl | rfl
  · rfl
  · rcases query with _ | q <;> rfl

/-- C4: `evaluate_all` dies on the assertion exactly when some sample list
is missing and some metadata list is also missing; with both sample lists
supplied it proceeds, drawing ids and cams from the sample lists. -/
theorem evaluate_all_assert (mapf : MeanApFn) (cmcf : CmcFn) (distmat : Mat)
    (query gallery : Option (List Sample))
    (qi gi qc gc : Option (List Int)) :
    ((query = none ∨ gallery = none) →
      (qi = none ∨ gi = none ∨ qc = none ∨ gc = none) →
      evaluate_all mapf cmcf distmat query gallery qi gi qc gc = none) ∧
    (∀ q g, query = some q → gallery = some g →
      evaluate_all mapf cmcf distmat query gallery qi gi qc gc =
        some (evaluate_core mapf cmcf distmat
          (q.map (fun s => s.2.1)) (g.map (fun s => s.2.1))
          (q.map (fun s => s.2.2)) (g.map (fun s => s.2.2)))) := by
  constructor
  · intro hqg hmeta
    rw [evaluate_all, effectiveMeta_of_missing _ _ _ _ _ _ hqg,
      assertMeta_none _ _ _ _ hmeta]
    rfl
  · rintro q g rfl rfl
    rfl

/-- Witness for C4 at concrete inputs: the assertion fires when the query
list and the camera metadata are absent, and is bypassed when both sample
lists are present. -/
theorem evaluate_all_assert_witness :
    evaluate_all (fun _ _ _ _ _ => 0) (fun _ _ _ _ _ _ _ _ _ => 0) []
      none (some [("b", 1, 1)]) (some [1]) (some [1]) none (some [1]) = none ∧
    evaluate_all (fun _ _ _ _ _ => 0) (fun _ _ _ _ _ _ _ _ _ => 0) []
      (some [("a", 3, 0)]) (some [("b", 1, 1)]) none none none none =
      some (evaluate_core (fun _ _ _ _ _ => 0) (fun _ _ _ _ _ _ _ _ _ => 0) []
        [3] [1] [0] [1]) :=
  ⟨(evaluate_all_assert (fun _ _ _ _ _ => 0) (fun _ _ _ _ _ _ _ _ _ => 0) []
      none (some [("b", 1, 1)]) (some [1]) (some [1]) none (some [1])).1
      (Or.inl rfl) (Or.inr (Or.inr (Or.inl rfl))),
   (evaluate_all_assert (fun _ _ _ _ _ => 0) (fun _ _ _ _ _ _ _ _ _ => 0) []
      (some [("a", 3, 0)]) (some [("b", 1, 1)]) none none none none).2
      [("a", 3, 0)] [("b", 1, 1)] rfl rfl⟩

/-- C1: the scalar returned by `evaluate_all` — and by `Evaluator.evaluate`,
which delegates to it — is the value at index 0 (rank 1) of the CMC curve
computed under the default `market1501` policy (separate_camera_set=False,
single_gallery_shot=False, first_match_break=True). -/
theorem evaluate_returns_rank1_cmc {Img : Type}
    (model : List Img → List (List ℚ))
    (mapf : MeanApFn) (cmcf : CmcFn) (distmat : Mat)
    (query gallery : Option (List Sample))
    (qi gi qc gc : Option (List Int))
    (query_loader gallery_loader : List (LoaderBatch Img))
    (q g : List Sample) :
    (∀ r m, effectiveMeta query gallery qi gi qc gc = some m →
      evaluate_all mapf cmcf distmat query gallery qi gi qc gc = some r →
      r.score = cmcf distmat m.1 m.2.1 m.2.2.1 m.2.2.2 false false true 0) ∧
    (∀ r D, pairwise_distance (extract_features model query_loader).1
        (extract_features model gallery_loader).1 q g = some D →
      Evaluator.evaluate model mapf cmcf query_loader gallery_loader q g = some r →
      r.score = cmcf D (q.map (fun s => s.2.1)) (g.map (fun s => s.2.1))
        (q.map (fun s => s.2.2)) (g.map (fun s => s.2.2)) false false true 0) := by
  constructor
  · intro r m hm hr
    rw [evaluate_all, hm] at hr
    simp only [Option.map_some'] at hr
    cases hr
    rfl
  · intro r D hD hr
    simp only [Evaluator.evaluate] at hr
    rw [hD] at hr
    simp only [evaluate_all, effectiveMeta, Option.map_some'] at hr
    cases hr
    rfl

/-- Witness for C1 at concrete inputs. -/
theorem evaluate_returns_rank1_cmc_witness :
    (evaluate_core (fun _ _ _ _ _ => 0) (fun _ _ _ _ _ _ _ _ _ => 7) []
      [1] [1] [0] [1]).score = 7 ∧
    (evaluate_core (fun _ _ _ _ _ => 0) (fun _ _ _ _ _ _ _ _ _ => 7) [[0]]
      [1] [1] [0] [1]).score = 7 :=
  ⟨(@evaluate_returns_rank1_cmc Unit (fun l => l.map (fun _ => [0]))
      (fun _ _ _ _ _ => 0) (fun _ _ _ _ _ _ _ _ _ => 7) []
      (some [("a", 1, 0)]) (some [("b", 1, 1)]) none none none none
      [] [] [("a", 1, 0)] [("b", 1, 1)]).1
      (evaluate_core (fun _ _ _ _ _ => 0) (fun _ _ _ _ _ _ _ _ _ => 7) []
        [1] [1] [0] [1])
      ([1], [1], [0], [1]) rfl rfl,
   (@evaluate_returns_rank1_cmc Unit (fun l => l.map (fun _ => ([0] : List ℚ)))
      (fun _ _ _ _ _ => 0) (fun _ _ _ _ _ _ _ _ _ => 7) []
      none none none none none none
      [⟨[()], ["a"], [1], [0]⟩] [⟨[()], ["b"], [1], [1]⟩]
      [("a", 1, 0)] [("b", 1, 1)]).2
      (evaluate_core (fun _ _ _ _ _ => 0) (fun _ _ _ _ _ _ _ _ _ => 7) [[0]]
        [1] [1] [0] [1])
      [[0]]
      (by norm_num [pairwise_distance, optMap, alookup, extract_features,
        allTriples, procTriples, extract_cnn_feature, List.isEmpty,
        entryDist, sqnorm, dotp])
      (by norm_num [Evaluator.evaluate, pairwise_distance, optMap, alookup,
        extract_features, allTriples, procTriples, extract_cnn_feature,
        List.isEmpty, entryDist, sqnorm, dotp, evaluate_all, effectiveMeta])⟩

/-- C7: a successful `evaluate_all` call prints exactly one summary line,
`[mAP: P%], [cmc1: P%], [cmc5: P%], [cmc10: P%]`, whose percentages are the
mAP and the default-policy CMC values at curve indices 0, 4 and 9, each
rendered with two decimal places by `fmtPercent`. -/
theorem evaluate_all_prints_summary (mapf : MeanApFn) (cmcf : CmcFn)
    (distmat : Mat) (query gallery : Option (List Sample))
    (qi gi qc gc : Option (List Int)) (r : EvalOutput)
    (m : List Int × List Int × List Int × List Int)
    (hm : effectiveMeta query gallery qi gi qc gc = some m)
    (hr : evaluate_all mapf cmcf distmat query gallery qi gi qc gc = some r) :
    r.printed = [summaryLine (mapf distmat m.1 m.2.1 m.2.2.1 m.2.2.2)
      (cmcf distmat m.1 m.2.1 m.2.2.1 m.2.2.2 false false true 0)
      (cmcf distmat m.1 m.2.1 m.2.2.1 m.2.2.2 false false true 4)
      (cmcf distmat m.1 m.2.1 m.2.2.1 m.2.2.2 false false true 9)] := by
  rw [evaluate_all, hm] at hr
  simp only [Option.map_some'] at hr
  cases hr
  rfl

/-- Witness for C7 at a concrete input. -/
theorem evaluate_all_prints_summary_witness :
    (evaluate_core (fun _ _ _ _ _ => 0) (fun _ _ _ _ _ _ _ _ k => k) []
      [1] [1] [0] [1]).printed = [summaryLine 0 0 4 9] :=
  evaluate_all_prints_summary (fun _ _ _ _ _ => 0)
    (fun _ _ _ _ _ _ _ _ k => k) [] (some [("a", 1, 0)]) (some [("b", 1, 1)])
    none none none none
    (evaluate_core (fun _ _ _ _ _ => 0) (fun _ _ _ _ _ _ _ _ k => k) []
      [1] [1] [0] [1])
    ([1], [1], [0], [1]) rfl rfl

theorem alookup_append_of_isSome {α β : Type} [DecidableEq α]
    (l m : List (α × β)) (a : α) (h : (alookup l a).isSome) :
    alookup (l ++ m) a = alookup l a := by
  induction l with
  | nil => simp [alookup] at h
  | cons e l ih =>
    obtain ⟨k, v⟩ := e
    by_cases hk : k = a
    · simp [alookup, hk]
    · simp only [alookup, hk, if_false, List.cons_append]
      exact ih (by simpa [alookup, hk] using h)

theorem alookup_append_of_none {α β : Type} [DecidableEq α]
    (l m : List (α × β)) (a : α) (h : alookup l a = none) :
    alookup (l ++ m) a = alookup m a := by
  induction l with
  | nil => rfl
  | cons e l ih =>
    obtain ⟨k, v⟩ := e
    by_cases hk : k = a
    · simp [alookup, hk] at h
    · simp only [alookup, hk, if_false, List.cons_append] at h ⊢
      exact ih h

theorem alookup_reverse {α β : Type} [DecidableEq α]
    (l : List (α × β)) (a : α) :
    alookup l.reverse a = lastEntry l a := by
  induction l with
  | nil => rfl
  | cons e l ih =>
    obtain ⟨k, v⟩ := e
    simp only [List.reverse_cons, lastEntry]
    cases h : lastEntry l a with
    | none =>
      rw [alookup_append_of_none _ _ _ (by rw [ih, h])]
      simp [alookup]
    | some w =>
      rw [alookup_append_of_isSome _ _ _ (by rw [ih, h]; rfl), ih, h]

theorem lastEntry_fst (l : List (String × List ℚ × Int)) (a : String) :
    lastEntry (l.map (fun t => (t.1, t.2.1))) a =
      (lastEntry l a).map (fun e => e.1) := by
  induction l with
  | nil => rfl
  | cons t l ih =>
    obtain ⟨f, o, p⟩ := t
    simp only [List.map_cons, lastEntry, ih]
    cases lastEntry l a with
    | none => by_cases hf : f = a <;> simp [hf]
    | some w => rfl

theorem lastEntry_snd (l : List (String × List ℚ × Int)) (a : String) :
    lastEntry (l.map (fun t => (t.1, t.2.2))) a =
      (lastEntry l a).map (fun e => e.2) := by
  induction l with
  | nil => rfl
  | cons t l ih =>
    obtain ⟨f, o, p⟩ := t
    simp only [List.map_cons, lastEntry, ih]
    cases lastEntry l a with
    | none => by_cases hf : f = a <;> simp [hf]
    | some w => rfl

theorem procTriples_spec (ts : List (String × List ℚ × Int))
    (fe : List (String × List ℚ)) (la : List (String × Int)) :
    procTriples ts (fe, la) =
      ((ts.map (fun t => (t.1, t.2.1))).reverse ++ fe,
       (ts.map (fun t => (t.1, t.2.2))).reverse ++ la) := by
  induction ts generalizing fe la with
  | nil => simp [procTriples]
  | cons t ts ih =>
    obtain ⟨f, o, p⟩ := t
    simp [procTriples, ih, List.append_assoc]

/-- C6: the dicts built by `extract_features` bind each file name to the
embedding and identity label of the LAST streamed batch element bearing it
(later occurrences overwrite earlier ones; no deduplication). -/
theorem extract_features_last_wins {Img : Type}
    (model : List Img → List (List ℚ))
    (dl : List (LoaderBatch Img)) (f : String) :
    alookup (extract_features model dl).1 f =
      (lastEntry (allTriples model dl) f).map (fun e => e.1) ∧
    alookup (extract_features model dl).2 f =
      (lastEntry (allTriples model dl) f).map (fun e => e.2) := by
  have h := procTriples_spec (allTriples model dl) [] []
  have h1 : (extract_features model dl).1 =
      ((allTriples model dl).map (fun t => (t.1, t.2.1))).reverse := by
    rw [extract_features, h]; simp
  have h2 : (extract_features model dl).2 =
      ((allTriples model dl).map (fun t => (t.1, t.2.2))).reverse := by
    rw [extract_features, h]; simp
  constructor
  · rw [h1, alookup_reverse, lastEntry_fst]
  · rw [h2, alookup_reverse, lastEntry_snd]

theorem firstAppAux_extends (seen : List Int) (ps : List Int) :
    ∃ t, firstAppAux seen ps = seen ++ t := by
  induction ps generalizing seen with
  | nil => exact ⟨[], by simp [firstAppAux]⟩
  | cons p ps ih =>
    by_cases hp : p ∈ seen
    · obtain ⟨t, ht⟩ := ih seen
      exact ⟨t, by simp [firstAppAux, hp, ht]⟩
    · obtain ⟨t, ht⟩ := ih (seen ++ [p])
      exact ⟨[p] ++ t, by simp [firstAppAux, hp, ht]⟩

theorem mem_firstAppAux (seen : List Int) (ps : List Int) (a : Int) :
    a ∈ firstAppAux seen ps ↔ a ∈ seen ∨ a ∈ ps := by
  induction ps generalizing seen with
  | nil => simp [firstAppAux]
  | cons p ps ih =>
    by_cases hp : p ∈ seen
    · rw [firstAppAux, if_pos hp, ih]
      constructor
      · rintro (h | h)
        · exact Or.inl h
        · exact Or.inr (List.mem_cons_of_mem p h)
      · rintro (h | h)
        · exact Or.inl h
        · rcases List.mem_cons.mp h with rfl | h
          · exact Or.inl hp
          · exact Or.inr h
    · rw [firstAppAux, if_neg hp, ih]
      simp only [List.mem_append, List.mem_singleton, List.mem_cons]
      tauto

theorem nodup_firstAppAux (seen : List Int) (ps : List Int)
    (h : seen.Nodup) : (firstAppAux seen ps).Nodup := by
  induction ps generalizing seen with
  | nil => exact h
  | cons p ps ih =>
    by_cases hp : p ∈ seen
    · rw [firstAppAux, if_pos hp]; exact ih seen h
    · rw [firstAppAux, if_neg hp]
      exact ih _ (by simp [List.nodup_append, h, hp])

theorem idxOf_append_left (p : Int) (l t : List Int) (h : p ∈ l) :
    idxOf p (l ++ t) = idxOf p l := by
  induction l with
  | nil => simp at h
  | cons q l ih =>
    by_cases hq : q = p
    · simp [idxOf, hq]
    · rcases List.mem_cons.mp h with rfl | h
      · exact absurd rfl hq
      · simp [idxOf, hq, ih h]

theorem idxOf_append_self (p : Int) (l : List Int) (h : p ∉ l) :
    idxOf p (l ++ [p]) = l.length := by
  induction l with
  | nil => simp [idxOf]
  | cons q l ih =>
    have hq : q ≠ p := fun hqp => h (hqp ▸ List.mem_cons_self q l)
    have h' : p ∉ l := fun hp => h (List.mem_cons_of_mem q hp)
    simp [idxOf, hq, ih h']

theorem idxOf_lt_length (p : Int) (l : List Int) (h : p ∈ l) :
    idxOf p l < l.length := by
  induction l with
  | nil => simp at h
  | cons q l ih =>
    by_cases hq : q = p
    · simp [idxOf, hq]
    · rcases List.mem_cons.mp h with rfl | h
      · exact absurd rfl hq
      · simpa [idxOf, hq] using ih h

theorem idxOf_get (l : List Int) (h : l.Nodup) :
    ∀ i (hi : i < l.length), idxOf (l.get ⟨i, hi⟩) l = i := by
  induction l with
  | nil => intro i hi; simp at hi
  | cons q l ih =>
    intro i hi
    cases i with
    | zero => simp [idxOf]
    | succ j =>
      have hj : j < l.length := Nat.lt_of_succ_lt_succ hi
      have hmem : l[j] ∈ l := List.get_mem l j hj
      have hq : q ≠ l[j] := by
        intro hqe
        exact (List.nodup_cons.mp h).1 (hqe ▸ hmem)
      have hrec := ih (List.nodup_cons.mp h).2 j hj
      simp only [List.get_eq_getElem] at hrec
      simp only [List.get_eq_getElem, List.getElem_cons_succ]
      simp [idxOf, hq, hrec]

theorem pidAssign_append (relabel : Bool) (seen t : List Int) (p : Int)
    (h : p ∈ seen) :
    pidAssign relabel (seen ++ t) p = pidAssign relabel seen p := by
  cases relabel with
  | false => rfl
  | true => simp [pidAssign, idxOf_append_left p seen t h]

theorem pidAssign_firstAppAux (relabel : Bool) (seen ps : List Int) (p : Int)
    (h : p ∈ seen) :
    pidAssign relabel (firstAppAux seen ps) p = pidAssign relabel seen p := by
  obtain ⟨t, ht⟩ := firstAppAux_extends seen ps
  rw [ht, pidAssign_append relabel seen t p h]

theorem preprocessAux_spec (relabel : Bool) (files : List RawFile)
    (seen : List Int) (all_pids : List (Int × Int)) (ret : List Sample)
    (hkeys : ∀ p : Int, (alookup all_pids p).isSome ↔ p ∈ seen)
    (hvals : ∀ p ∈ seen, alookup all_pids p = some (pidAssign relabel seen p))
    (hlen : all_pids.length = seen.length) :
    (preprocessAux relabel files all_pids ret).2 =
      ret ++ (files.filter (fun x => x.pid ≠ -1)).map (fun x =>
        (x.fname,
         pidAssign relabel
           (firstAppAux seen ((files.filter (fun x => x.pid ≠ -1)).map RawFile.pid))
           x.pid,
         x.cam - 1)) ∧
    (preprocessAux relabel files all_pids ret).1.length =
      (firstAppAux seen ((files.filter (fun x => x.pid ≠ -1)).map RawFile.pid)).length := by
  induction files generalizing seen all_pids ret with
  | nil =>
    simp only [preprocessAux, List.filter_nil, List.map_nil, firstAppAux,
      List.append_nil]
    exact ⟨trivial, hlen⟩
  | cons f fs ih =>
    by_cases hjunk : f.pid = -1
    · have hfc : (f :: fs).filter (fun x => x.pid ≠ -1) =
          fs.filter (fun x => x.pid ≠ -1) := by
        simp [List.filter_cons, hjunk]
      rw [hfc]
      have hred : preprocessAux relabel (f :: fs) all_pids ret =
          preprocessAux relabel fs all_pids ret := by
        simp [preprocessAux, hjunk]
      rw [hred]
      exact ih seen all_pids ret hkeys hvals hlen
    · have hfc : (f :: fs).filter (fun x => x.pid ≠ -1) =
          f :: fs.filter (fun x => x.pid ≠ -1) := by
        simp [List.filter_cons, hjunk]
      rw [hfc]
      by_cases hmem : f.pid ∈ seen
      · -- identity seen before: the dict is unchanged
        have hsome : (alookup all_pids f.pid).isSome := (hkeys f.pid).mpr hmem
        have hred : preprocessAux relabel (f :: fs) all_pids ret =
            preprocessAux relabel fs all_pids
              (ret ++ [(f.fname, (alookup all_pids f.pid).getD 0, f.cam - 1)]) := by
          simp [preprocessAux, hjunk, hsome]
        have hval : (alookup all_pids f.pid).getD 0 = pidAssign relabel seen f.pid := by
          rw [hvals f.pid hmem]; rfl
        have hfa : firstAppAux seen
            ((f :: fs.filter (fun x => x.pid ≠ -1)).map RawFile.pid) =
            firstAppAux seen ((fs.filter (fun x => x.pid ≠ -1)).map RawFile.pid) := by
          simp [firstAppAux, hmem]
        rw [hred, hfa]
        obtain ⟨h2, h1⟩ := ih seen all_pids
          (ret ++ [(f.fname, (alookup all_pids f.pid).getD 0, f.cam - 1)])
          hkeys hvals hlen
        refine ⟨?_, h1⟩
        rw [h2, hval, List.map_cons, List.append_assoc, List.singleton_append,
          pidAssign_firstAppAux relabel seen _ f.pid hmem]
      · -- first appearance: the dict gains a binding for f.pid
        have hnone : alookup all_pids f.pid = none :=
          Option.not_isSome_iff_eq_none.mp (fun hs => hmem ((hkeys f.pid).mp hs))
        have hnotsome : ¬ (alookup all_pids f.pid).isSome := by
          simp [hnone]
        set v : Int := if relabel then (all_pids.length : Int) else f.pid with hv
        have hred : preprocessAux relabel (f :: fs) all_pids ret =
            preprocessAux relabel fs (all_pids ++ [(f.pid, v)])
              (ret ++ [(f.fname,
                (alookup (all_pids ++ [(f.pid, v)]) f.pid).getD 0, f.cam - 1)]) := by
          simp [preprocessAux, hjunk, hnotsome, hv]
        have hkeys' : ∀ q : Int,
            (alookup (all_pids ++ [(f.pid, v)]) q).isSome ↔ q ∈ seen ++ [f.pid] := by
          intro q
          by_cases hq : (alookup all_pids q).isSome
          · rw [alookup_append_of_isSome _ _ _ hq]
            simp only [List.mem_append, List.mem_singleton]
            exact ⟨fun h => Or.inl ((hkeys q).mp h), fun _ => hq⟩
          · have hqn : alookup all_pids q = none :=
              Option.not_isSome_iff_eq_none.mp hq
            rw [alookup_append_of_none _ _ _ hqn]
            have hqs : q ∉ seen := fun hs => hq ((hkeys q).mpr hs)
            by_cases hfq : f.pid = q
            · simp [alookup, hfq]
            · simp only [alookup, hfq, if_false, List.mem_append,
                List.mem_singleton]
              simp only [Option.isSome_none, Bool.false_eq_true, false_iff]
              rintro (h | rfl)
              · exact hqs h
              · exact hfq rfl
        have hvals' : ∀ q ∈ seen ++ [f.pid],
            alookup (all_pids ++ [(f.pid, v)]) q =
              some (pidAssign relabel (seen ++ [f.pid]) q) := by
          intro q hq
          rcases List.mem_append.mp hq with hqs | hqp
          · have hqsome : (alookup all_pids q).isSome := (hkeys q).mpr hqs
            rw [alookup_append_of_isSome _ _ _ hqsome, hvals q hqs,
              pidAssign_append relabel seen [f.pid] q hqs]
          · have hqe : q = f.pid := List.mem_singleton.mp hqp
            subst hqe
            rw [alookup_append_of_none _ _ _ hnone]
            simp only [alookup, if_pos rfl]
            cases relabel with
            | false => simp [pidAssign, hv]
            | true =>
              rw [hv]
              simp only [if_pos rfl, pidAssign, if_true]
              rw [hlen, idxOf_append_self f.pid seen hmem]
        have hlen' : (all_pids ++ [(f.pid, v)]).length = (seen ++ [f.pid]).length := by
          simp [hlen]
        have hval : (alookup (all_pids ++ [(f.pid, v)]) f.pid).getD 0 =
            pidAssign relabel (seen ++ [f.pid]) f.pid := by
          rw [hvals' f.pid (by simp)]; rfl
        have hfa : firstAppAux seen
            ((f :: fs.filter (fun x => x.pid ≠ -1)).map RawFile.pid) =
            firstAppAux (seen ++ [f.pid])
              ((fs.filter (fun x => x.pid ≠ -1)).map RawFile.pid) := by
          simp [firstAppAux, hmem]
        rw [hred, hfa]
        obtain ⟨h2, h1⟩ := ih (seen ++ [f.pid]) (all_pids ++ [(f.pid, v)])
          (ret ++ [(f.fname,
            (alookup (all_pids ++ [(f.pid, v)]) f.pid).getD 0, f.cam - 1)])
          hkeys' hvals' hlen'
        refine ⟨?_, h1⟩
        rw [h2, hval, List.map_cons, List.append_assoc, List.singleton_append,
          pidAssign_firstAppAux relabel (seen ++ [f.pid]) _ f.pid (by simp)]

theorem preprocess_spec (files : List RawFile) (relabel : Bool) :
    AI_City.preprocess files relabel =
      ((files.filter (fun x => x.pid ≠ -1)).map (fun x =>
        (x.fname,
         pidAssign relabel
           (firstApp ((files.filter (fun x => x.pid ≠ -1)).map RawFile.pid))
           x.pid,
         x.cam - 1)),
       (firstApp ((files.filter (fun x => x.pid ≠ -1)).map RawFile.pid)).length) := by
  obtain ⟨h2, h1⟩ := preprocessAux_spec relabel files [] [] []
    (by intro p; simp [alookup]) (by intro p hp; simp at hp) rfl
  rw [AI_City.preprocess]
  refine Prod.ext ?_ ?_
  · simpa [firstApp] using h2
  · simpa [firstApp] using h1

/-- C9: `AI_City.preprocess` drops exactly the matched files whose raw
identity label is -1; every other file contributes exactly one sample, in
input (sorted file-name) order. -/
theorem preprocess_drops_junk (files : List RawFile) (relabel : Bool) :
    (AI_City.preprocess files relabel).1.map (fun s => s.1) =
      (retainedFiles files).map RawFile.fname ∧
    (AI_City.preprocess files relabel).1.length = (retainedFiles files).length := by
  rw [preprocess_spec, retainedFiles]
  constructor
  · rw [List.map_map]
    rfl
  · simp

/-- C10: with `relabel=True` the retained raw identities are renamed to
the consecutive integers `0..k-1` in order of first appearance (each
sample gets the first-appearance index of its raw identity; the
first-appearance list is duplicate-free, covers exactly the retained raw
identities, its indices fill `0..k-1`, and the returned count is its
length `k`); with `relabel=False` the raw labels are kept unchanged and
the returned count is still `k`. -/
theorem preprocess_relabel_behaviour (files : List RawFile) :
    ((AI_City.preprocess files true).1.map (fun s => s.2.1) =
      (retainedFiles files).map (fun x => (idxOf x.pid (seenPids files) : Int))) ∧
    (seenPids files).Nodup ∧
    (∀ p : Int, p ∈ seenPids files ↔ p ∈ (retainedFiles files).map RawFile.pid) ∧
    (∀ p ∈ seenPids files, idxOf p (seenPids files) < (AI_City.preprocess files true).2) ∧
    (∀ i, i < (AI_City.preprocess files true).2 →
      ∃ p ∈ seenPids files, idxOf p (seenPids files) = i) ∧
    (AI_City.preprocess files true).2 = (seenPids files).length ∧
    ((AI_City.preprocess files false).1.map (fun s => s.2.1) =
      (retainedFiles files).map RawFile.pid) ∧
    (AI_City.preprocess files false).2 = (seenPids files).length := by
  have hnodup : (seenPids files).Nodup :=
    nodup_firstAppAux [] _ List.nodup_nil
  have hcount : (AI_City.preprocess files true).2 = (seenPids files).length := by
    rw [preprocess_spec]
    rfl
  refine ⟨?_, hnodup, ?_, ?_, ?_, hcount, ?_, ?_⟩
  · rw [preprocess_spec, List.map_map]
    refine List.map_congr_left ?_
    intro x _
    simp [pidAssign, seenPids, retainedFiles, firstApp]
  · intro p
    rw [seenPids, firstApp, mem_firstAppAux, retainedFiles]
    simp
  · intro p hp
    rw [hcount]
    exact idxOf_lt_length p _ hp
  · intro i hi
    rw [hcount] at hi
    refine ⟨(seenPids files).get ⟨i, hi⟩, List.get_mem _ i hi, ?_⟩
    exact idxOf_get _ hnodup i hi
  · rw [preprocess_spec, List.map_map]
    refine List.map_congr_left ?_
    intro x _
    simp [pidAssign, retainedFiles]
  · rw [preprocess_spec]
    rfl

/-- C8 counterexample: `AI_City.preprocess` can return negative
metadata — with relabelling off, a retained raw identity -2 stays -2, and
a raw camera number 0 yields camera identifier -1. -/
theorem preprocess_negative_metadata_cex :
    (AI_City.preprocess [⟨"a.jpg", -2, 1⟩] false).1 = [("a.jpg", -2, 0)] ∧
    (AI_City.preprocess [⟨"b.jpg", 3, 0⟩] true).1 = [("b.jpg", 0, -1)] ∧
    ¬ (∀ s ∈ (AI_City.preprocess [⟨"a.jpg", -2, 1⟩] false).1, 0 ≤ s.2.1) ∧
    ¬ (∀ s ∈ (AI_City.preprocess [⟨"b.jpg", 3, 0⟩] true).1, 0 ≤ s.2.2) := by
  refine ⟨?_, ?_, ?_, ?_⟩ <;> decide

/-- C8 (amended): every returned sample's camera identifier equals the raw
camera number decremented by one, unconditionally; the camera identifiers
are non-negative provided the raw camera numbers are one-based (≥ 1); and
the identity labels are non-negative provided relabelling is on or every
retained raw identity is non-negative. -/
theorem preprocess_cam_pid_invariants (files : List RawFile) (relabel : Bool) :
    ((AI_City.preprocess files relabel).1.map (fun s => s.2.2) =
      (retainedFiles files).map (fun x => x.cam - 1)) ∧
    ((∀ f ∈ files, 1 ≤ f.cam) →
      ∀ s ∈ (AI_City.preprocess files relabel).1, 0 ≤ s.2.2) ∧
    ((relabel = true ∨ ∀ f ∈ files, f.pid ≠ -1 → 0 ≤ f.pid) →
      ∀ s ∈ (AI_City.preprocess files relabel).1, 0 ≤ s.2.1) := by
  refine ⟨?_, ?_, ?_⟩
  · rw [preprocess_spec, retainedFiles, List.map_map]
    rfl
  · intro hcam s hs
    rw [preprocess_spec] at hs
    obtain ⟨x, hx, rfl⟩ := List.mem_map.mp hs
    have hxf : x ∈ files := List.mem_of_mem_filter hx
    have h1 := hcam x hxf
    show (0 : Int) ≤ x.cam - 1
    omega
  · intro hpid s hs
    rw [preprocess_spec] at hs
    obtain ⟨x, hx, rfl⟩ := List.mem_map.mp hs
    have hxf : x ∈ files := List.mem_of_mem_filter hx
    show (0 : Int) ≤ pidAssign relabel _ x.pid
    cases relabel with
    | true =>
      rw [pidAssign, if_pos rfl]
      exact Int.natCast_nonneg _
    | false =>
      rcases hpid with h | h
      · cases h
      · have hxp : x.pid ≠ -1 := by simpa using List.of_mem_filter hx
        rw [pidAssign]
        simpa using h x hxf hxp

/-- Witness for C8 (amended) at a concrete input: the single retained file
("x.jpg", raw pid 5, raw cam 3) with relabelling off yields the sample
("x.jpg", 5, 2); its camera column is the decremented raw camera and both
metadata entries are non-negative. -/
theorem preprocess_cam_pid_invariants_witness :
    ((AI_City.preprocess [⟨"x.jpg", 5, 3⟩] false).1.map (fun s => s.2.2) =
      (retainedFiles [⟨"x.jpg", 5, 3⟩]).map (fun x => x.cam - 1)) ∧
    (0 : Int) ≤ 2 ∧ (0 : Int) ≤ 5 :=
  ⟨(preprocess_cam_pid_invariants [⟨"x.jpg", 5, 3⟩] false).1,
   (preprocess_cam_pid_invariants [⟨"x.jpg", 5, 3⟩] false).2.1
     (by decide) ("x.jpg", 5, 2) (by decide),
   (preprocess_cam_pid_invariants [⟨"x.jpg", 5, 3⟩] false).2.2
     (Or.inr (by decide)) ("x.jpg", 5, 2) (by decide)⟩
